import Mathlib

/-!
Shallow embedding of `src/upload.py` (s3-glacier-client): the resumable
chunked-upload engine (class `Upload`) and the chunk-size validator.

Modelling conventions:
* File contents are abstracted by their byte count: the engine never inspects
  payload bytes (they are only forwarded to the remote collaborator), so
  `self.file.read(self.chunk_size)` is modelled by the number of bytes it
  returns, `min chunk_size (file_size - file_pos)`, the stream position being
  `file_pos` (a fresh `open(path, rb)` puts it at 0).
* The remote service, the local file system and the dump file are oracles in
  `Env`: `uploadResp k` is the checksum `upload_part` returns for the part
  whose `cur_chunk` is `k` (`none` models a RemoteError raised by the call),
  `readFails p` tells whether `self.file.read` raises an IOError when the
  stream position is `p`, and `dumpFails` tells whether `_dump_state` itself
  raises while serializing.
* Python dict keys survive `json.dump` followed by `json.load` as strings, so
  the checksum mapping uses `JKey` (an int key or a string key) and the JSON
  serialization step stringifies the int keys.
* Progress printing (`verbose`) is omitted; Python ints are unbounded, hence
  `Nat`; `math.ceil(a / b)` on nonnegative operands is modelled as exact
  ceiling division.
-/

/-- Ceiling division, the model of `math.ceil(a / b)` for nonnegative ints. -/
def ceilDiv (a b : Nat) : Nat := (a + b - 1) / b

/-- A Python dict key as it can appear in `part_checksums`: an int key (fresh
inserts use `self.cur_chunk`, an int) or a string key (what `json.load` gives
back after a dump). -/
inductive JKey where
  | nat (n : Nat)
  | str (s : String)
deriving DecidableEq, Repr

/-- Python dict assignment `m[k] = v`: replace the value in place if the key
is present, append the pair otherwise (insertion order preserved). -/
def dictInsert (m : List (JKey × String)) (k : JKey) (v : String) :
    List (JKey × String) :=
  if m.any (fun p => p.1 == k) then
    m.map (fun p => if p.1 == k then (k, v) else p)
  else m ++ [(k, v)]

/-- The resume record: the dict serialized by `Upload._dump_state`
(src/upload.py lines 60-69), fields in the order of the source literal. -/
structure StateRecord where
  account_id : String
  vault_name : String
  upload_id : String
  cur_chunk : Nat
  cur_byte : Nat
  file_path : String
  chunk_size_mb : Nat
  part_checksums : List (JKey × String)
deriving DecidableEq, Repr

/-- JSON serialization of a dict key: `json.dump` writes int keys as their
decimal string, string keys unchanged. -/
def jsonKey : JKey → JKey
  | .nat n => .str (Nat.repr n)
  | .str s => .str s

/-- The mutable state of a `src/upload.py` `Upload` object.  `upload_obj` is
represented by the `account_id`/`upload_id` pair it carries; `cur_part_data`
by its length `cur_part_len`. -/
structure Upload where
  err : Bool
  vault_name : String
  description : String
  file_path : String
  file_size : Nat
  chunk_size_mb : Nat
  chunk_size : Nat
  chunks : Nat
  file_pos : Nat
  cur_chunk : Nat
  cur_byte : Nat
  cur_byte_end : Nat
  cur_part_len : Nat
  account_id : String
  upload_id : String
  part_checksums : List (JKey × String)
deriving DecidableEq, Repr

/-- `Upload.__init__`, fresh branch (src/upload.py lines 35-53).
`disk_size` is `os.path.getsize(path)` at init time.  `account_id` and
`upload_id` are empty until `request_upload` fills them. -/
def Upload.init_fresh (vault desc path : String) (disk_size mb : Nat) : Upload :=
  { err := false, vault_name := vault, description := desc, file_path := path,
    file_size := disk_size, chunk_size_mb := mb, chunk_size := 1048576 * mb,
    chunks := ceilDiv disk_size (1048576 * mb), file_pos := 0,
    cur_chunk := 0, cur_byte := 0, cur_byte_end := 0, cur_part_len := 0,
    account_id := "", upload_id := "", part_checksums := [] }

/-- `Upload.request_upload` (src/upload.py lines 86-99): on a fresh job it
binds the session ids returned by the remote service; on a resumed job it
does nothing. -/
def Upload.request_upload (j : Upload) (account_id upload_id : String) : Upload :=
  if j.err then j
  else { j with account_id := account_id, upload_id := upload_id }

/-- `Upload.__init__`, resume branch (src/upload.py lines 13-34).
`disk_size` is `os.path.getsize(data[file_path])` at resume time (the size on
disk now, not a persisted one).  The source does `open(self.file_path, rb)`
and never seeks, so the stream position is 0.  `description`, `cur_byte_end`
and `cur_part_data` are not assigned in this branch of the source; they are
first written before being read, so the model gives them defaults. -/
def Upload.init_resume (data : StateRecord) (disk_size : Nat) : Upload :=
  { err := true, vault_name := data.vault_name, description := "",
    file_path := data.file_path, file_size := disk_size,
    chunk_size_mb := data.chunk_size_mb,
    chunk_size := 1048576 * data.chunk_size_mb,
    chunks := ceilDiv disk_size (1048576 * data.chunk_size_mb),
    file_pos := 0,
    cur_chunk := data.cur_chunk, cur_byte := data.cur_byte,
    cur_byte_end := 0, cur_part_len := 0,
    account_id := data.account_id, upload_id := data.upload_id,
    part_checksums := data.part_checksums }

/-- `Upload._dump_state` (src/upload.py lines 59-73): the durable record as
`json.dump` writes it (int checksum keys become decimal strings). -/
def Upload.dump_state (j : Upload) : StateRecord :=
  { account_id := j.account_id, vault_name := j.vault_name,
    upload_id := j.upload_id, cur_chunk := j.cur_chunk, cur_byte := j.cur_byte,
    file_path := j.file_path, chunk_size_mb := j.chunk_size_mb,
    part_checksums := j.part_checksums.map (fun p => (jsonKey p.1, p.2)) }

/-- `Upload._get_current_chunk` (src/upload.py lines 75-84): read up to
`chunk_size` bytes; on empty read return 0; otherwise set `cur_byte_end`,
bump `cur_chunk`, and return the byte count. -/
def Upload.get_current_chunk (j : Upload) : Upload × Nat :=
  let n := min j.chunk_size (j.file_size - j.file_pos)
  let j1 := { j with cur_part_len := n, file_pos := j.file_pos + n }
  if n = 0 then (j1, 0)
  else ({ j1 with cur_byte_end := j.cur_byte + n - 1,
                  cur_chunk := j.cur_chunk + 1 }, n)

/-- The literal byte-range header of src/upload.py line 106. -/
def byte_range_header (a b : Nat) : String :=
  "bytes " ++ Nat.repr a ++ "-" ++ Nat.repr b ++ "/*"

/-- One part-upload request as issued by src/upload.py line 107: the chunk
index it is keyed by, the header string, the inclusive offsets the header was
built from, and the payload length. -/
structure SentPart where
  idx : Nat
  header : String
  startOff : Nat
  endOff : Nat
  len : Nat
deriving DecidableEq, Repr

/-- The exceptions the engine can meet during `start_upload`. -/
inductive PyErr where
  | remoteErr
  | ioErr
  | dumpErr
deriving DecidableEq, Repr

/-- Oracles for the external collaborators (remote service, file system,
dump file), see the module comment. -/
structure Env where
  uploadResp : Nat → Option String
  readFails : Nat → Bool
  dumpFails : Bool

/-- How the `while` loop of `start_upload` ended. -/
inductive LoopRes where
  | done (j : Upload)
  | failed (j : Upload) (e : PyErr)
  | spin (j : Upload)
deriving Repr

/-- Loop result plus the state after each completed mutating operation
(`trace`) and the part-upload requests issued (`parts`). -/
structure LoopOut where
  res : LoopRes
  trace : List Upload
  parts : List SentPart
deriving Repr

/-- The part-upload request of src/upload.py lines 106-107 for the chunk
currently held by `j` (`bytesRead` bytes, header from `cur_byte` and
`cur_byte_end`). -/
def partOf (j : Upload) (bytesRead : Nat) : SentPart :=
  ⟨j.cur_chunk, byte_range_header j.cur_byte j.cur_byte_end,
   j.cur_byte, j.cur_byte_end, bytesRead⟩

/-- src/upload.py line 109: `self.part_checksums[self.cur_chunk] = checksum`. -/
def recordChecksum (j : Upload) (ck : String) : Upload :=
  { j with part_checksums := dictInsert j.part_checksums (JKey.nat j.cur_chunk) ck }

/-- src/upload.py line 110: `self.cur_byte += bytes_read`. -/
def advanceCursor (j : Upload) (bytesRead : Nat) : Upload :=
  { j with cur_byte := j.cur_byte + bytesRead }

/-- The `while bytes_read != 0` loop of `Upload.start_upload`
(src/upload.py lines 105-120), fuel-indexed.  Each iteration: build the
byte-range header and call `upload_part` (RemoteError modelled by
`uploadResp = none`), record the checksum under the int key `cur_chunk`,
advance `cur_byte` by `bytes_read`, then read the next chunk (IOError
modelled by `readFails`).  `trace` records the state after the checksum
assignment, after the cursor advance, and after the read. -/
def transmitLoop (env : Env) : Nat → Upload → Nat → LoopOut
  | 0, j, _ => ⟨.spin j, [], []⟩
  | fuel + 1, j, bytesRead =>
    if bytesRead = 0 then ⟨.done j, [], []⟩
    else
      match env.uploadResp j.cur_chunk with
      | none => ⟨.failed j .remoteErr, [], [partOf j bytesRead]⟩
      | some ck =>
        let j1 := recordChecksum j ck
        let j2 := advanceCursor j1 bytesRead
        if env.readFails j2.file_pos then
          ⟨.failed j2 .ioErr, [j1, j2], [partOf j bytesRead]⟩
        else
          let r := j2.get_current_chunk
          let o := transmitLoop env fuel r.1 r.2
          ⟨o.res, j1 :: j2 :: r.1 :: o.trace, partOf j bytesRead :: o.parts⟩

/-- Overall outcome of `start_upload`. -/
inductive Outcome where
  | ok (j : Upload)
  | raised (e : PyErr)
  | spin
deriving DecidableEq, Repr

/-- The observable failure-handling events of `start_upload`, in the order
they happen: a resume record written by `_dump_state`, the `file.close()`
call, and the `raise` that leaves the function. -/
inductive REvent where
  | dumped (r : StateRecord)
  | fileClosed
  | reraised (e : PyErr)
deriving DecidableEq, Repr

/-- Everything observable about one `start_upload` run. -/
structure RunOutput where
  res : Outcome
  trace : List Upload
  parts : List SentPart
  events : List REvent
deriving Repr

/-- `Upload.start_upload` (src/upload.py lines 101-127).  The first
`_get_current_chunk` call sits OUTSIDE the `try` block: an error there
propagates with no dump and no `file.close()`.  Errors inside the loop reach
the `except` handler: `_dump_state()` (which, if it raises itself, replaces
the original error and skips the close), then `file.close()`, then
`raise e`.  On clean termination the file is closed. -/
def Upload.start_upload (env : Env) (j : Upload) : RunOutput :=
  if env.readFails j.file_pos then
    ⟨.raised .ioErr, [], [], [.reraised .ioErr]⟩
  else
    let r := j.get_current_chunk
    let o := transmitLoop env (j.file_size + 1) r.1 r.2
    match o.res with
    | .done j2 => ⟨.ok j2, r.1 :: o.trace, o.parts, [.fileClosed]⟩
    | .failed j2 e =>
      if env.dumpFails then
        ⟨.raised .dumpErr, r.1 :: o.trace, o.parts, [.reraised .dumpErr]⟩
      else
        ⟨.raised e, r.1 :: o.trace, o.parts,
         [.dumped j2.dump_state, .fileClosed, .reraised e]⟩
    | .spin _ => ⟨.spin, r.1 :: o.trace, o.parts, []⟩

/-- The sequence of values `_get_current_chunk` returns when driven to
exhaustion from state `j` with no failures (the ChunkReader view of the
engine): the byte count of each payload, then the terminating 0. -/
def readSeqAux : Nat → Upload → List Nat
  | 0, _ => []
  | fuel + 1, j =>
    let r := j.get_current_chunk
    if r.2 = 0 then [0] else r.2 :: readSeqAux fuel r.1

/-- `readSeqAux` with enough fuel to finish. -/
def Upload.readSeq (j : Upload) : List Nat := readSeqAux (j.file_size + 1) j

/-- The payload sizes of a file of `rem` remaining bytes cut into chunks of
`C` bytes (reference recursion for the reader). -/
def chunkLens (C : Nat) (rem : Nat) : List Nat :=
  if h : rem = 0 ∨ C = 0 then []
  else min C rem :: chunkLens C (rem - C)
  termination_by rem
  decreasing_by
    push_neg at h
    omega

/-- `validate_chunk_size` (src/upload.py lines 139-145); argparse gives it a
Python int, hence `Int`; Python `&` on ints is `Int.land` (two's-complement
bitwise and, as in Python). -/
def validate_chunk_size (size : Int) : Except String Int :=
  if size < 1 ∨ size > 4096 then
    .error (r"Illegal chunk size: expected value between 1 MiB and 4 GiB.")
  else if size = 0 ∨ Int.land size (size - 1) ≠ 0 then
    .error (r"Illegal chunk size: size must be a power of 2.")
  else .ok size

/-- True on `.ok`. -/
def exceptOk : Except String Int → Bool
  | .ok _ => true
  | .error _ => false

/-- The main flow up to engine construction (src/upload.py lines 176-178):
`parse_args` validates the chunk-size flag, and only a validated job goes on
to `Upload.__init__` (which is the first point touching the file system —
`disk_size` is only consumed there). -/
def parseAndInit (vault desc path : String) (size : Int) (disk_size : Nat) :
    Except String Upload :=
  match validate_chunk_size size with
  | .error m => .error m
  | .ok mb => .ok (Upload.init_fresh vault desc path disk_size mb.toNat)

/-! Concrete scenario objects shared by several theorems. -/

/-- Remote service that acknowledges every part with checksum "ck". -/
def envAllOk : Env := ⟨fun _ => some (r"ck"), fun _ => false, false⟩

/-- Remote service that raises a RemoteError on the part upload of chunk 2
and acknowledges every other part with checksum "c1". -/
def envChunk2Fails : Env :=
  ⟨fun k => if k = 2 then none else some (r"c1"), fun _ => false, false⟩

/-- File system where the very first `file.read` (stream position 0) raises
an IOError; the remote service acknowledges everything. -/
def envFirstReadFails : Env := ⟨fun _ => some (r"ck"), fun p => p == 0, false⟩

/-- Remote service that raises a RemoteError on every part upload, and a
`_dump_state` that itself raises (for example, disk full while writing the
dump file). -/
def envUploadAndDumpFail : Env := ⟨fun _ => none, fun _ => false, true⟩

/-- Fresh job: 10 MiB file (10485760 bytes), 4 MiB chunks, so 3 chunks. -/
def jobFresh3 : Upload :=
  (Upload.init_fresh (r"v") (r"d") (r"p") 10485760 4).request_upload (r"acc") (r"uid")

/-- Fresh job over a 3-byte file with 1 MiB chunks (a single chunk). -/
def jobTiny : Upload :=
  (Upload.init_fresh (r"v") (r"d") (r"p") 3 1).request_upload (r"acc") (r"uid")

/-- The resume record the code itself writes when chunk 2 of 3 fails on
`jobFresh3` (checked by `c2_counterexample`). -/
def recFailed2 : StateRecord :=
  ⟨r"acc", r"v", r"uid", 2, 4194304, r"p", 4, [(JKey.str (r"1"), r"c1")]⟩

/-- C1 — the resume path is required to seek the reopened file to the
persisted `cur_byte` so that only unacknowledged chunks are re-sent.  The
code evaluated at the spec scenario record (cur_byte 4194304, 10 MiB file,
4 MiB chunks): the reconstructed job has stream position 0, and the resumed
run issues 3 part uploads totalling all 10485760 bytes of the file — it
re-reads and re-sends the already-acknowledged first chunk's bytes (labelled
with the resumed byte range 4194304-8388607). -/
theorem c1_resume_reads_from_byte_zero :
    (Upload.init_resume recFailed2 10485760).file_pos = 0 ∧
    ((Upload.init_resume recFailed2 10485760).start_upload envAllOk).parts.length = 3 ∧
    (((Upload.init_resume recFailed2 10485760).start_upload envAllOk).parts.map SentPart.len).sum = 10485760 ∧
    ((Upload.init_resume recFailed2 10485760).start_upload envAllOk).parts.head? =
      some ⟨3, byte_range_header 4194304 8388607, 4194304, 8388607, 4194304⟩ := by
  decide

/-- C2 counterexample — on `jobFresh3` (3 chunks of 4 MiB, chunk 1
acknowledged, chunk 2 upload raises a RemoteError) the failure handler dumps
a record whose `cur_chunk` is 2, not 1 as the claim states
(`_get_current_chunk` increments `cur_chunk` when the chunk is read, before
its upload is acknowledged). -/
theorem c2_counterexample :
    (jobFresh3.start_upload envChunk2Fails).events =
      [.dumped recFailed2, .fileClosed, .reraised .remoteErr] ∧
    recFailed2.cur_chunk = 2 ∧ ¬ recFailed2.cur_chunk = 1 := by
  decide

/-- A job state holding the checksum of chunk 1 under the int key 1, as the
transmit loop creates it in a fresh run. -/
def jobAfterChunk1 : Upload :=
  { jobTiny with cur_chunk := 1, cur_byte := 3, file_pos := 3,
                 cur_byte_end := 2, cur_part_len := 3,
                 part_checksums := [(JKey.nat 1, r"c1")] }

/-- C3 counterexample — dumping `jobAfterChunk1` and loading the record does
not reconstruct an identical checksum mapping: the int key 1 comes back as
the string key "1" (JSON object keys are strings). -/
theorem c3_counterexample :
    ¬ (Upload.init_resume jobAfterChunk1.dump_state jobAfterChunk1.file_size).part_checksums
      = jobAfterChunk1.part_checksums := by
  decide

/-- C3 amended — dump then load reconstructs `cur_chunk` and `cur_byte`
exactly, and reconstructs the checksum mapping up to JSON key
stringification: values and order are preserved and each int key is replaced
by its decimal string (a mapping whose keys are already strings round-trips
identically). -/
theorem c3_roundtrip_amended (j : Upload) (d : Nat) :
    (Upload.init_resume j.dump_state d).cur_chunk = j.cur_chunk ∧
    (Upload.init_resume j.dump_state d).cur_byte = j.cur_byte ∧
    (Upload.init_resume j.dump_state d).part_checksums
      = j.part_checksums.map (fun p => (jsonKey p.1, p.2)) :=
  ⟨rfl, rfl, rfl⟩

/-- C4 counterexample — a local file read failure on the first chunk: the
first `_get_current_chunk` call sits outside the `try` block, so the IOError
propagates with no state dump and no `file.close()`; the run's only event is
the propagated error. -/
theorem c4_counterexample :
    (jobTiny.start_upload envFirstReadFails).res = .raised .ioErr ∧
    (jobTiny.start_upload envFirstReadFails).events = [.reraised .ioErr] := by
  decide

/-- C5 — the claim is right and the code is wrong: when the failure-handler
dump itself raises, the dump's error replaces the original transmit error
and `file.close()` is skipped.  Evaluated at a run where the upload of
chunk 1 raises a RemoteError and `_dump_state` raises too: the run raises
`dumpErr` (not `remoteErr`), writes no record and never closes the file. -/
theorem c5_dump_failure_masks_original :
    (jobTiny.start_upload envUploadAndDumpFail).res = .raised .dumpErr ∧
    ¬ (jobTiny.start_upload envUploadAndDumpFail).res = .raised .remoteErr ∧
    (jobTiny.start_upload envUploadAndDumpFail).events = [.reraised .dumpErr] := by
  decide

/-- The claim C6 invariant, decidably: byte cursor within the file, chunk
index within the chunk count, and every index in [1, cur_chunk] with exactly
one checksum entry. -/
def invAsStated (j : Upload) : Bool :=
  decide (j.cur_byte ≤ j.file_size) && decide (j.cur_chunk ≤ j.chunks) &&
  ((List.range' 1 j.cur_chunk).all fun i =>
    (j.part_checksums.filter (fun p => p.1 == JKey.nat i)).length == 1)

/-- C6 counterexample — in the fresh single-chunk run of `jobTiny` there is
a point (right after `_get_current_chunk` has read chunk 1 and incremented
`cur_chunk`, before `upload_part` has returned) where `cur_chunk = 1` but
the checksum mapping is still empty, so the stated invariant fails. -/
theorem c6_counterexample :
    (jobTiny.start_upload envAllOk).trace.all invAsStated = false := by
  decide

/-- C10 — the resume record carries no file size: `dump_state` is unchanged
by the job's `file_size`, and `init_resume` recomputes `file_size` and
`chunks` from the size of the file on disk at resume time. -/
theorem c10_size_recomputed (data : StateRecord) (d : Nat) (j : Upload) (d2 : Nat) :
    (Upload.init_resume data d).file_size = d ∧
    (Upload.init_resume data d).chunks = ceilDiv d (1048576 * data.chunk_size_mb) ∧
    Upload.dump_state { j with file_size := d2 } = j.dump_state :=
  ⟨rfl, rfl, rfl⟩

/-! Chunk segmentation facts (C7). -/

theorem chunkLens_zero (C : Nat) : chunkLens C 0 = [] := by
  rw [chunkLens]; simp

theorem chunkLens_cons (C rem : Nat) (hC : C ≠ 0) (hr : rem ≠ 0) :
    chunkLens C rem = min C rem :: chunkLens C (rem - C) := by
  rw [chunkLens]; simp [hC, hr]

/-- Closed form of the chunk cut: `rem / C` full chunks then the remainder. -/
theorem chunkLens_closed (C : Nat) (hC : 0 < C) (rem : Nat) :
    chunkLens C rem =
      List.replicate (rem / C) C ++ (if rem % C = 0 then [] else [rem % C]) := by
  induction rem using Nat.strong_induction_on with
  | _ rem ih =>
    by_cases h0 : rem = 0
    · subst h0; simp [chunkLens_zero]
    rcases Nat.lt_or_ge rem C with hlt | hge
    · rw [chunkLens_cons C rem (by omega) h0]
      have h1 : min C rem = rem := by omega
      have h2 : rem - C = 0 := by omega
      rw [h1, h2, chunkLens_zero, Nat.div_eq_of_lt hlt, Nat.mod_eq_of_lt hlt]
      simp [h0]
    · obtain ⟨a, rfl⟩ : ∃ a, rem = a + C := ⟨rem - C, by omega⟩
      rw [chunkLens_cons C _ (by omega) h0]
      have h1 : min C (a + C) = C := by omega
      have h2 : a + C - C = a := by omega
      rw [h1, h2, ih a (by omega), Nat.add_div_right a hC, Nat.add_mod_right a C]
      simp [List.replicate_succ]

theorem ceilDiv_eq (C rem : Nat) (hC : 0 < C) :
    ceilDiv rem C = rem / C + if rem % C = 0 then 0 else 1 := by
  obtain ⟨q, r, hr, rfl⟩ : ∃ q r, r < C ∧ rem = C * q + r :=
    ⟨rem / C, rem % C, Nat.mod_lt _ hC, (Nat.div_add_mod rem C).symm⟩
  rw [Nat.mul_add_div hC, Nat.mul_add_mod, Nat.div_eq_of_lt hr,
      Nat.mod_eq_of_lt hr]
  by_cases h : r = 0
  · subst h
    have e : C * q + 0 + C - 1 = (C - 1) + q * C := by
      have h1 : C * q = q * C := Nat.mul_comm C q
      omega
    rw [ceilDiv, e, Nat.add_mul_div_right _ _ hC, Nat.div_eq_of_lt (by omega)]
    simp
  · have e : C * q + r + C - 1 = (r - 1) + (q + 1) * C := by
      have h1 : (q + 1) * C = q * C + C := Nat.succ_mul q C
      have h2 : C * q = q * C := Nat.mul_comm C q
      omega
    rw [ceilDiv, e, Nat.add_mul_div_right _ _ hC, Nat.div_eq_of_lt (by omega)]
    simp [h]

theorem chunkLens_length (C rem : Nat) (hC : 0 < C) :
    (chunkLens C rem).length = ceilDiv rem C := by
  rw [chunkLens_closed C hC rem, ceilDiv_eq C rem hC]
  by_cases h : rem % C = 0 <;> simp [h]

theorem chunkLens_sum (C rem : Nat) (hC : 0 < C) :
    (chunkLens C rem).sum = rem := by
  rw [chunkLens_closed C hC rem]
  by_cases h : rem % C = 0
  · simp [h, List.sum_replicate, smul_eq_mul]
    exact Nat.div_mul_cancel (Nat.dvd_of_mod_eq_zero h)
  · simp [h, List.sum_replicate, smul_eq_mul]
    rw [Nat.mul_comm]
    exact Nat.div_add_mod rem C

theorem chunkLens_mem (C rem : Nat) (hC : 0 < C) :
    ∀ x ∈ chunkLens C rem, 0 < x ∧ x ≤ C := by
  rw [chunkLens_closed C hC rem]
  intro x hx
  rcases List.mem_append.1 hx with hx | hx
  · rw [List.eq_of_mem_replicate hx]; omega
  · by_cases h : rem % C = 0
    · simp [h] at hx
    · simp [h] at hx
      subst hx
      have := Nat.mod_lt rem hC
      omega

theorem chunkLens_dropLast (C rem : Nat) (hC : 0 < C) :
    ∀ x ∈ (chunkLens C rem).dropLast, x = C := by
  rw [chunkLens_closed C hC rem]
  intro x hx
  by_cases h : rem % C = 0
  · simp [h, List.dropLast_replicate] at hx
    exact hx.2
  · simp only [h, ite_false, List.dropLast_concat] at hx
    exact List.eq_of_mem_replicate hx

theorem chunkLens_getLast (C rem : Nat) (hC : 0 < C) :
    ∀ x, (chunkLens C rem).getLast? = some x → 0 < x ∧ x ≤ C := by
  intro x hx
  obtain ⟨hne, hx2⟩ := List.mem_getLast?_eq_getLast (l := chunkLens C rem) (x := x) hx
  exact hx2 ▸ chunkLens_mem C rem hC _ (List.getLast_mem hne)

/-- `_get_current_chunk` at end of file: zero read, position and chunk
counter unchanged. -/
theorem gcc_zero (j : Upload)
    (hm : min j.chunk_size (j.file_size - j.file_pos) = 0) :
    j.get_current_chunk = ({ j with cur_part_len := 0 }, 0) := by
  simp [Upload.get_current_chunk, hm]

/-- `_get_current_chunk` mid-file: reads `n` bytes, advances the position,
sets `cur_byte_end` and bumps `cur_chunk`. -/
theorem gcc_pos (j : Upload) (n : Nat)
    (hm : min j.chunk_size (j.file_size - j.file_pos) = n) (hn : n ≠ 0) :
    j.get_current_chunk =
      ({ j with cur_part_len := n, file_pos := j.file_pos + n,
                cur_byte_end := j.cur_byte + n - 1,
                cur_chunk := j.cur_chunk + 1 }, n) := by
  simp [Upload.get_current_chunk, hm, hn]

theorem readSeqAux_eq (fuel : Nat) :
    ∀ j : Upload, 0 < j.chunk_size → j.file_size - j.file_pos < fuel →
      readSeqAux fuel j =
        chunkLens j.chunk_size (j.file_size - j.file_pos) ++ [0] := by
  induction fuel with
  | zero => intro j _ h; omega
  | succ fuel ih =>
    intro j hC h
    by_cases h0 : j.file_size - j.file_pos = 0
    · rw [readSeqAux, gcc_zero j (by omega)]
      rw [h0, chunkLens_zero]
      simp
    · set n := min j.chunk_size (j.file_size - j.file_pos) with hn
      have hnpos : 0 < n := by omega
      rw [readSeqAux, gcc_pos j n hn.symm (by omega)]
      simp only [if_neg (by omega : ¬ n = 0)]
      rw [ih _ (by simpa using hC) (by simp; omega)]
      simp only [chunkLens_cons j.chunk_size (j.file_size - j.file_pos) (by omega) h0]
      have e : j.file_size - (j.file_pos + n)
          = j.file_size - j.file_pos - j.chunk_size := by omega
      simp [e, hn]

/-- The C7 properties of a job's chunking, stated over the reader's read
sequence `readSeq` and the reference cut `chunkLens`. -/
def chunkReaderSpec (j : Upload) (C : Nat) : Prop :=
  j.chunks = ceilDiv j.file_size C ∧
  j.readSeq = chunkLens C j.file_size ++ [0] ∧
  (chunkLens C j.file_size).length = ceilDiv j.file_size C ∧
  (chunkLens C j.file_size).sum = j.file_size ∧
  (∀ x ∈ (chunkLens C j.file_size).dropLast, x = C) ∧
  (∀ x, (chunkLens C j.file_size).getLast? = some x → 0 < x ∧ x ≤ C) ∧
  (∀ x ∈ chunkLens C j.file_size, 0 < x) ∧
  j.readSeq.count 0 = 1

/-- C7 — for a fresh job over a file of size S > 0 with a valid
power-of-two chunk size of mb MiB (C = 1048576 * mb bytes): the computed
chunk count is ceil(S / C); the reader produces exactly the payload sizes
`chunkLens C S` followed by a single zero-byte read that terminates the
sequence; those payloads sum to S, all but the last equal C, and the last is
between 1 and C. -/
theorem c7_chunk_segmentation (vault desc path : String) (S mb : Nat)
    (hS : 0 < S) (h1 : 1 ≤ mb) (h2 : mb ≤ 4096) (h3 : ∃ k : Nat, mb = 2 ^ k) :
    chunkReaderSpec (Upload.init_fresh vault desc path S mb) (1048576 * mb) := by
  have hC : 0 < 1048576 * mb := by omega
  set C := 1048576 * mb with hCdef
  set j := Upload.init_fresh vault desc path S mb with hj
  have hfs : j.file_size = S := rfl
  have hfp : j.file_pos = 0 := rfl
  have hcs : j.chunk_size = C := rfl
  have hrs : j.readSeq = chunkLens C S ++ [0] := by
    rw [Upload.readSeq, readSeqAux_eq (j.file_size + 1) j (by rw [hcs]; exact hC) (by omega)]
    rw [hcs, hfs, hfp, Nat.sub_zero]
  refine ⟨rfl, hrs, chunkLens_length C S hC ▸ rfl, ?_, ?_, ?_, ?_, ?_⟩
  · rw [hfs]; exact chunkLens_sum C S hC
  · rw [hfs]; exact chunkLens_dropLast C S hC
  · rw [hfs]; exact chunkLens_getLast C S hC
  · rw [hfs]; intro x hx; exact (chunkLens_mem C S hC x hx).1
  · rw [hrs, List.count_append]
    have h0 : (chunkLens C S).count 0 = 0 := by
      rw [List.count_eq_zero]
      intro hmem
      exact absurd (chunkLens_mem C S hC 0 hmem).1 (by omega)
    simp [h0]

/-- Witness for C7 at a 3-byte file with 1 MiB chunks: a single 3-byte
chunk, then the terminating zero read. -/
theorem c7_chunk_segmentation_witness :
    chunkReaderSpec (Upload.init_fresh (r"v") (r"d") (r"p") 3 1) (1048576 * 1) :=
  c7_chunk_segmentation (r"v") (r"d") (r"p") 3 1 (by decide) (by decide)
    (by decide) ⟨0, by decide⟩

/-! Case equations for `transmitLoop`. -/

theorem tl_zero (env : Env) (fuel : Nat) (j : Upload) :
    transmitLoop env (fuel + 1) j 0 = ⟨.done j, [], []⟩ := by
  rw [transmitLoop]
  simp

theorem tl_remote_fail (env : Env) (fuel : Nat) (j : Upload) (n : Nat)
    (hn : n ≠ 0) (hresp : env.uploadResp j.cur_chunk = none) :
    transmitLoop env (fuel + 1) j n =
      ⟨.failed j .remoteErr, [], [partOf j n]⟩ := by
  rw [transmitLoop]
  simp [hn, hresp]

theorem tl_read_fail (env : Env) (fuel : Nat) (j : Upload) (n : Nat) (ck : String)
    (hn : n ≠ 0) (hresp : env.uploadResp j.cur_chunk = some ck)
    (hrf : env.readFails (advanceCursor (recordChecksum j ck) n).file_pos = true) :
    transmitLoop env (fuel + 1) j n =
      ⟨.failed (advanceCursor (recordChecksum j ck) n) .ioErr,
       [recordChecksum j ck, advanceCursor (recordChecksum j ck) n],
       [partOf j n]⟩ := by
  rw [transmitLoop]
  simp [hn, hresp, hrf]

theorem tl_step (env : Env) (fuel : Nat) (j : Upload) (n : Nat) (ck : String)
    (hn : n ≠ 0) (hresp : env.uploadResp j.cur_chunk = some ck)
    (hrf : env.readFails (advanceCursor (recordChecksum j ck) n).file_pos = false) :
    transmitLoop env (fuel + 1) j n =
      ⟨(transmitLoop env fuel (advanceCursor (recordChecksum j ck) n).get_current_chunk.1
          (advanceCursor (recordChecksum j ck) n).get_current_chunk.2).res,
       recordChecksum j ck :: advanceCursor (recordChecksum j ck) n ::
         (advanceCursor (recordChecksum j ck) n).get_current_chunk.1 ::
         (transmitLoop env fuel (advanceCursor (recordChecksum j ck) n).get_current_chunk.1
           (advanceCursor (recordChecksum j ck) n).get_current_chunk.2).trace,
       partOf j n ::
         (transmitLoop env fuel (advanceCursor (recordChecksum j ck) n).get_current_chunk.1
           (advanceCursor (recordChecksum j ck) n).get_current_chunk.2).parts⟩ := by
  rw [transmitLoop]
  simp [hn, hresp, hrf]

/-! Checksum-key bookkeeping and the transmit-loop invariant (C6, C8). -/

/-- The dict keys of the checksum mapping, in insertion order. -/
def keysOf (j : Upload) : List JKey := j.part_checksums.map Prod.fst

/-- The int keys a, a+1, ..., a+n-1. -/
def natKeyRange (a n : Nat) : List JKey := (List.range' a n).map JKey.nat

theorem keysOf_dictInsert (m : List (JKey × String)) (k : JKey) (v : String)
    (h : k ∉ m.map Prod.fst) :
    (dictInsert m k v).map Prod.fst = m.map Prod.fst ++ [k] := by
  rw [dictInsert, if_neg]
  · simp
  · intro hc
    rw [List.any_eq_true] at hc
    obtain ⟨p, hp, hpk⟩ := hc
    have hk : p.1 = k := by simpa using hpk
    exact h (hk ▸ List.mem_map_of_mem Prod.fst hp)

theorem natKeyRange_concat (k : Nat) (hk : 1 ≤ k) :
    natKeyRange 1 (k - 1) ++ [JKey.nat k] = natKeyRange 1 k := by
  obtain ⟨m, rfl⟩ : ∃ m, k = m + 1 := ⟨k - 1, by omega⟩
  simp only [natKeyRange, Nat.add_sub_cancel]
  rw [List.range'_concat]
  simp
  omega

theorem nat_notMem_natKeyRange (k a n : Nat) (h : ¬ (a ≤ k ∧ k < a + n)) :
    JKey.nat k ∉ natKeyRange a n := by
  intro hmem
  simp only [natKeyRange, List.mem_map] at hmem
  obtain ⟨m, hm, hmk⟩ := hmem
  injection hmk with h2
  subst h2
  exact h (List.mem_range'_1.1 hm)

theorem ceilDiv_bounds (S C : Nat) (hC : 0 < C) :
    S ≤ ceilDiv S C * C ∧ ceilDiv S C * C < S + C := by
  have h1 := ceilDiv_eq C S hC
  have h2 := Nat.div_add_mod S C
  have h3 : C * (S / C) = S / C * C := Nat.mul_comm _ _
  by_cases h : S % C = 0
  · rw [h1, if_pos h]
    simp only [Nat.add_zero]
    omega
  · rw [h1, if_neg h]
    have h4 : (S / C + 1) * C = S / C * C + C := Nat.succ_mul _ _
    have h5 : S % C < C := Nat.mod_lt _ hC
    omega

/-- The C6 invariant as the code maintains it: cursor and chunk-count bounds
hold at every point; the checksum keys are exactly the int keys 1..cur_chunk,
except between the read of a chunk and the acknowledgement of its upload,
where the entry of the freshly read chunk (index cur_chunk) is still
missing. -/
def jobInvAmended (j : Upload) : Prop :=
  j.cur_byte ≤ j.file_size ∧ j.cur_chunk ≤ j.chunks ∧
  (keysOf j = natKeyRange 1 j.cur_chunk ∨
   keysOf j = natKeyRange 1 (j.cur_chunk - 1))

/-- Entry invariant of the transmit loop in a fresh run, where `n` is what
the last `_get_current_chunk` call returned. -/
structure LoopInv (j : Upload) (n : Nat) : Prop where
  hC : 0 < j.chunk_size
  hub : j.file_size ≤ j.chunks * j.chunk_size
  hlb : j.chunks * j.chunk_size < j.file_size + j.chunk_size
  hb : j.cur_byte ≤ j.file_size
  hk : j.cur_chunk ≤ j.chunks
  hpos : j.file_pos = j.cur_byte + n
  hmin : n = min j.chunk_size (j.file_size - j.cur_byte)
  hz : n = 0 → keysOf j = natKeyRange 1 j.cur_chunk
  hp : 0 < n → keysOf j = natKeyRange 1 (j.cur_chunk - 1) ∧ 1 ≤ j.cur_chunk ∧
       j.cur_byte = (j.cur_chunk - 1) * j.chunk_size ∧
       j.cur_byte_end + 1 = j.cur_byte + n

theorem LoopInv.toInv {j : Upload} {n : Nat} (h : LoopInv j n) :
    jobInvAmended j := by
  rcases Nat.eq_zero_or_pos n with hn | hn
  · exact ⟨h.hb, h.hk, Or.inl (h.hz hn)⟩
  · exact ⟨h.hb, h.hk, Or.inr (h.hp hn).1⟩

theorem keysOf_recordChecksum (j : Upload) (ck : String)
    (h : JKey.nat j.cur_chunk ∉ keysOf j) :
    keysOf (recordChecksum j ck) = keysOf j ++ [JKey.nat j.cur_chunk] := by
  simp only [keysOf, recordChecksum]
  exact keysOf_dictInsert _ _ _ h

/-- One successful iteration of the transmit loop preserves the invariant:
the three states it appends to the trace satisfy the amended job invariant,
and the state after the next read re-establishes the loop invariant. -/
theorem LoopInv.step (j : Upload) (n : Nat) (ck : String)
    (hI : LoopInv j n) (hn : 0 < n) :
    keysOf (recordChecksum j ck) = natKeyRange 1 j.cur_chunk ∧
    jobInvAmended (recordChecksum j ck) ∧
    jobInvAmended (advanceCursor (recordChecksum j ck) n) ∧
    LoopInv (advanceCursor (recordChecksum j ck) n).get_current_chunk.1
            (advanceCursor (recordChecksum j ck) n).get_current_chunk.2 ∧
    jobInvAmended (advanceCursor (recordChecksum j ck) n).get_current_chunk.1 ∧
    (advanceCursor (recordChecksum j ck) n).get_current_chunk.1.cur_byte
      = j.cur_byte + n := by
  have hC := hI.hC
  have hub := hI.hub
  have hlb := hI.hlb
  have hb := hI.hb
  have hkk := hI.hk
  have hpos := hI.hpos
  have hmin := hI.hmin
  obtain ⟨hkeys, hk1, hbyte, hend⟩ := hI.hp hn
  have hnot : JKey.nat j.cur_chunk ∉ keysOf j := by
    rw [hkeys]
    exact nat_notMem_natKeyRange _ _ _ (by omega)
  have hkrec : keysOf (recordChecksum j ck) = natKeyRange 1 j.cur_chunk := by
    rw [keysOf_recordChecksum j ck hnot, hkeys, natKeyRange_concat _ hk1]
  have hkc : j.cur_chunk * j.chunk_size
      = (j.cur_chunk - 1) * j.chunk_size + j.chunk_size := by
    obtain ⟨m, hm⟩ : ∃ m, j.cur_chunk = m + 1 := ⟨j.cur_chunk - 1, by omega⟩
    rw [hm]
    simp [Nat.succ_mul]
  have hbn : j.cur_byte + n ≤ j.file_size := by omega
  have hinv1 : jobInvAmended (recordChecksum j ck) := ⟨hb, hkk, Or.inl hkrec⟩
  have hinv2 : jobInvAmended (advanceCursor (recordChecksum j ck) n) :=
    ⟨hbn, hkk, Or.inl hkrec⟩
  refine ⟨hkrec, hinv1, hinv2, ?_⟩
  by_cases h0 : min j.chunk_size (j.file_size - j.file_pos) = 0
  · rw [gcc_zero (advanceCursor (recordChecksum j ck) n) h0]
    refine ⟨⟨hC, hub, hlb, hbn, hkk, ?_, ?_, fun _ => hkrec,
      fun h => absurd h (by omega)⟩, ⟨hbn, hkk, Or.inl hkrec⟩, rfl⟩
    · show j.file_pos = j.cur_byte + n + 0
      omega
    · show (0 : Nat) = min j.chunk_size (j.file_size - (j.cur_byte + n))
      omega
  · rw [gcc_pos (advanceCursor (recordChecksum j ck) n)
        (min j.chunk_size (j.file_size - j.file_pos)) rfl h0]
    dsimp only [advanceCursor, recordChecksum]
    have hnC : n = j.chunk_size := by omega
    have hkltc : j.cur_chunk * j.chunk_size < j.chunks * j.chunk_size := by
      omega
    have hklt : j.cur_chunk < j.chunks :=
      lt_of_mul_lt_mul_right hkltc (Nat.zero_le _)
    have hkeys3 : keysOf (recordChecksum j ck)
        = natKeyRange 1 (j.cur_chunk + 1 - 1) := by
      rw [Nat.add_sub_cancel]
      exact hkrec
    refine ⟨⟨hC, hub, hlb, hbn,
      (show j.cur_chunk + 1 ≤ j.chunks by omega), ?_, ?_, fun h => absurd h h0,
      fun _ => ⟨hkeys3, (show 1 ≤ j.cur_chunk + 1 by omega), ?_, ?_⟩⟩,
      ⟨hbn, (show j.cur_chunk + 1 ≤ j.chunks by omega), Or.inr hkeys3⟩, rfl⟩
    · show j.file_pos + min j.chunk_size (j.file_size - j.file_pos)
        = j.cur_byte + n + min j.chunk_size (j.file_size - j.file_pos)
      omega
    · show min j.chunk_size (j.file_size - j.file_pos)
        = min j.chunk_size (j.file_size - (j.cur_byte + n))
      omega
    · show j.cur_byte + n = (j.cur_chunk + 1 - 1) * j.chunk_size
      rw [Nat.add_sub_cancel]
      omega
    · show j.cur_byte + n + min j.chunk_size (j.file_size - j.file_pos) - 1 + 1
        = j.cur_byte + n + min j.chunk_size (j.file_size - j.file_pos)
      omega

/-- Every state the transmit loop appends to the trace satisfies the amended
job invariant, provided the loop is entered with its invariant. -/
theorem transmitLoop_trace_inv (env : Env) :
    ∀ fuel (j : Upload) (n : Nat), LoopInv j n →
      ∀ x ∈ (transmitLoop env fuel j n).trace, jobInvAmended x := by
  intro fuel
  induction fuel with
  | zero =>
    intro j n _ x hx
    simp [transmitLoop] at hx
  | succ fuel ih =>
    intro j n hI x hx
    rcases Nat.eq_zero_or_pos n with hn | hn
    · subst hn
      rw [tl_zero] at hx
      simp at hx
    · cases hresp : env.uploadResp j.cur_chunk with
      | none =>
        rw [tl_remote_fail env fuel j n (by omega) hresp] at hx
        simp at hx
      | some ck =>
        obtain ⟨hkrec, hinv1, hinv2, hI3, hinv3, hcb⟩ := LoopInv.step j n ck hI hn
        cases hrf : env.readFails (advanceCursor (recordChecksum j ck) n).file_pos with
        | true =>
          rw [tl_read_fail env fuel j n ck (by omega) hresp hrf] at hx
          simp at hx
          rcases hx with rfl | rfl
          · exact hinv1
          · exact hinv2
        | false =>
          rw [tl_step env fuel j n ck (by omega) hresp hrf] at hx
          simp at hx
          rcases hx with rfl | rfl | rfl | hx
          · exact hinv1
          · exact hinv2
          · exact hinv3
          · exact ih _ _ hI3 x hx

/-- Well-formedness of the sequence of part-upload requests: every header is
the literal byte-range string built from its inclusive offsets, the end
offset is start + length - 1, and consecutive parts are contiguous. -/
def partsOk (l : List SentPart) : Prop :=
  (∀ p ∈ l, p.header = byte_range_header p.startOff p.endOff ∧
    p.endOff + 1 = p.startOff + p.len ∧ 0 < p.len) ∧
  l.Chain' (fun p q => q.startOff = p.endOff + 1)

theorem transmitLoop_parts_ok (env : Env) :
    ∀ fuel (j : Upload) (n : Nat), LoopInv j n →
      partsOk (transmitLoop env fuel j n).parts ∧
      (∀ p, (transmitLoop env fuel j n).parts.head? = some p →
        p.startOff = j.cur_byte) := by
  intro fuel
  induction fuel with
  | zero =>
    intro j n _
    refine ⟨⟨?_, ?_⟩, ?_⟩ <;> simp [transmitLoop]
  | succ fuel ih =>
    intro j n hI
    rcases Nat.eq_zero_or_pos n with hn | hn
    · subst hn
      rw [tl_zero]
      refine ⟨⟨?_, ?_⟩, ?_⟩ <;> simp
    · obtain ⟨hkeys, hk1, hbyte, hend⟩ := hI.hp hn
      have hpart : (partOf j n).header
            = byte_range_header (partOf j n).startOff (partOf j n).endOff ∧
          (partOf j n).endOff + 1 = (partOf j n).startOff + (partOf j n).len ∧
          0 < (partOf j n).len := ⟨rfl, hend, hn⟩
      cases hresp : env.uploadResp j.cur_chunk with
      | none =>
        rw [tl_remote_fail env fuel j n (by omega) hresp]
        refine ⟨⟨?_, ?_⟩, ?_⟩
        · intro p hp
          simp at hp
          subst hp
          exact hpart
        · simp
        · intro p hp
          simp at hp
          subst hp
          rfl
      | some ck =>
        obtain ⟨hkrec, hinv1, hinv2, hI3, hinv3, hcb⟩ := LoopInv.step j n ck hI hn
        cases hrf : env.readFails (advanceCursor (recordChecksum j ck) n).file_pos with
        | true =>
          rw [tl_read_fail env fuel j n ck (by omega) hresp hrf]
          refine ⟨⟨?_, ?_⟩, ?_⟩
          · intro p hp
            simp at hp
            subst hp
            exact hpart
          · simp
          · intro p hp
            simp at hp
            subst hp
            rfl
        | false =>
          rw [tl_step env fuel j n ck (by omega) hresp hrf]
          obtain ⟨⟨ihmem, ihchain⟩, ihhead⟩ := ih _ _ hI3
          refine ⟨⟨?_, ?_⟩, ?_⟩
          · intro p hp
            simp only [List.mem_cons] at hp
            rcases hp with rfl | hp
            · exact hpart
            · exact ihmem p hp
          · rw [List.chain'_cons']
            refine ⟨?_, ihchain⟩
            intro q hq
            have hqs := ihhead q hq
            rw [hqs, hcb]
            show j.cur_byte + n = (partOf j n).endOff + 1
            have : (partOf j n).endOff = j.cur_byte_end := rfl
            omega
          · intro p hp
            simp at hp
            rw [← hp]
            rfl

/-- After the initial `_get_current_chunk` call of a fresh run, the transmit
loop's entry invariant holds. -/
theorem LoopInv_initial (vault desc path aid uid : String) (S mb : Nat)
    (hmb : 0 < mb) :
    LoopInv ((Upload.init_fresh vault desc path S mb).request_upload aid uid).get_current_chunk.1
            ((Upload.init_fresh vault desc path S mb).request_upload aid uid).get_current_chunk.2 := by
  have hC : 0 < 1048576 * mb := by omega
  have hbounds := ceilDiv_bounds S (1048576 * mb) hC
  set jf := (Upload.init_fresh vault desc path S mb).request_upload aid uid with hjf
  by_cases h0 : min jf.chunk_size (jf.file_size - jf.file_pos) = 0
  · rw [gcc_zero jf h0]
    refine ⟨hC, hbounds.1, hbounds.2, Nat.zero_le _, Nat.zero_le _,
      (show (0 : Nat) = 0 + 0 by omega), ?_, fun _ => rfl,
      fun h => absurd h (by omega)⟩
    show (0 : Nat) = min (1048576 * mb) (S - 0)
    have h0' : min (1048576 * mb) (S - 0) = 0 := h0
    omega
  · rw [gcc_pos jf (min jf.chunk_size (jf.file_size - jf.file_pos)) rfl h0]
    have h0' : ¬ min (1048576 * mb) (S - 0) = 0 := h0
    have hS : 0 < S := by omega
    have hch : 1 ≤ ceilDiv S (1048576 * mb) := by
      by_contra hc
      have h1 : ceilDiv S (1048576 * mb) = 0 := by omega
      rw [h1, Nat.zero_mul] at hbounds
      omega
    refine ⟨hC, hbounds.1, hbounds.2, Nat.zero_le _,
      (show 0 + 1 ≤ ceilDiv S (1048576 * mb) by omega),
      (show (0 : Nat) + min (1048576 * mb) (S - 0)
         = 0 + min (1048576 * mb) (S - 0) from rfl), ?_,
      fun h => absurd h h0,
      fun _ => ⟨rfl, le_refl _,
        (show (0 : Nat) = (0 + 1 - 1) * (1048576 * mb) by simp), ?_⟩⟩
    · show min (1048576 * mb) (S - 0)
        = min (1048576 * mb) (S - 0)
      rfl
    · show (0 : Nat) + min (1048576 * mb) (S - 0) - 1 + 1
        = 0 + min (1048576 * mb) (S - 0)
      omega

/-! Projections of `start_upload` runs. -/

theorem su_first_read_fail (env : Env) (j : Upload)
    (h : env.readFails j.file_pos = true) :
    j.start_upload env = ⟨.raised .ioErr, [], [], [.reraised .ioErr]⟩ := by
  rw [Upload.start_upload]
  simp [h]

theorem su_trace (env : Env) (j : Upload) (h : env.readFails j.file_pos = false) :
    (j.start_upload env).trace =
      j.get_current_chunk.1 ::
        (transmitLoop env (j.file_size + 1)
          j.get_current_chunk.1 j.get_current_chunk.2).trace := by
  rw [Upload.start_upload]
  simp only [h, Bool.false_eq_true, if_false]
  rcases hres : (transmitLoop env (j.file_size + 1)
      j.get_current_chunk.1 j.get_current_chunk.2).res with j2 | ⟨j2, e⟩ | j2
  · simp [hres]
  · cases hdf : env.dumpFails <;> simp [hres, hdf]
  · simp [hres]

theorem su_parts (env : Env) (j : Upload) (h : env.readFails j.file_pos = false) :
    (j.start_upload env).parts =
      (transmitLoop env (j.file_size + 1)
        j.get_current_chunk.1 j.get_current_chunk.2).parts := by
  rw [Upload.start_upload]
  simp only [h, Bool.false_eq_true, if_false]
  rcases hres : (transmitLoop env (j.file_size + 1)
      j.get_current_chunk.1 j.get_current_chunk.2).res with j2 | ⟨j2, e⟩ | j2
  · simp [hres]
  · cases hdf : env.dumpFails <;> simp [hres, hdf]
  · simp [hres]

/-- C6 amended — in a fresh run with a positive chunk size, after each
completed operation the job satisfies: byte cursor ≤ file size, chunk index
≤ chunk count, and the checksum keys are exactly the int keys 1..cur_chunk —
except at the points between a chunk's read and the acknowledgement of its
upload, where the key of the just-read chunk (cur_chunk itself) is the one
entry still missing (the reader increments cur_chunk at read time, before
the upload is acknowledged). -/
theorem c6_invariant_amended (env : Env) (vault desc path aid uid : String)
    (S mb : Nat) (hmb : 0 < mb) :
    ∀ x ∈ (((Upload.init_fresh vault desc path S mb).request_upload aid uid).start_upload env).trace,
      jobInvAmended x := by
  intro x hx
  cases hrf : env.readFails ((Upload.init_fresh vault desc path S mb).request_upload aid uid).file_pos with
  | true =>
    rw [su_first_read_fail env _ hrf] at hx
    simp at hx
  | false =>
    rw [su_trace env _ hrf] at hx
    simp only [List.mem_cons] at hx
    rcases hx with rfl | hx
    · exact (LoopInv_initial vault desc path aid uid S mb hmb).toInv
    · exact transmitLoop_trace_inv env _ _ _
        (LoopInv_initial vault desc path aid uid S mb hmb) x hx

/-- Witness for the amended C6 at the single-chunk fresh run of `jobTiny`
(3-byte file, 1 MiB chunks, remote acknowledging every part). -/
theorem c6_invariant_amended_witness :
    0 < 1 ∧
    ∀ x ∈ (((Upload.init_fresh (r"v") (r"d") (r"p") 3 1).request_upload
        (r"acc") (r"uid")).start_upload envAllOk).trace, jobInvAmended x :=
  ⟨by decide,
   c6_invariant_amended envAllOk (r"v") (r"d") (r"p") (r"acc") (r"uid") 3 1
     (by decide)⟩

/-- C8 — in a fresh run every part-upload request is tagged with the literal
header `byte_range_header start end` built from its inclusive byte offsets,
with end = start + length - 1, and the ranges of successive parts are
contiguous and non-overlapping: each next part starts at the previous end
offset plus 1. -/
theorem c8_byte_ranges (env : Env) (vault desc path aid uid : String)
    (S mb : Nat) (hmb : 0 < mb) :
    partsOk (((Upload.init_fresh vault desc path S mb).request_upload aid uid).start_upload env).parts := by
  cases hrf : env.readFails ((Upload.init_fresh vault desc path S mb).request_upload aid uid).file_pos with
  | true =>
    rw [su_first_read_fail env _ hrf]
    exact ⟨by simp, by simp⟩
  | false =>
    rw [su_parts env _ hrf]
    exact (transmitLoop_parts_ok env _ _ _
      (LoopInv_initial vault desc path aid uid S mb hmb)).1

/-- Witness for C8 at the 3-chunk fresh run of `jobFresh3`. -/
theorem c8_byte_ranges_witness :
    0 < 4 ∧
    partsOk (((Upload.init_fresh (r"v") (r"d") (r"p") 10485760 4).request_upload
        (r"acc") (r"uid")).start_upload envAllOk).parts :=
  ⟨by decide,
   c8_byte_ranges envAllOk (r"v") (r"d") (r"p") (r"acc") (r"uid") 10485760 4
     (by decide)⟩

/-- C4 amended — once the transmit loop proper has been entered (the initial
read succeeded), any error raised inside it — a part-upload RemoteError or a
file-read IOError on chunks after the first — triggers, provided the dump
itself succeeds, exactly: a state dump, then the release of the file handle,
then the re-raise of the original error.  (The initial read of chunk 1 sits
outside the `try` and escapes this policy, see the counterexample; a failing
dump also escapes it, see C5.) -/
theorem c4_dump_close_reraise (env : Env) (j : Upload) (e : PyErr)
    (h1 : env.readFails j.file_pos = false) (h2 : env.dumpFails = false)
    (h3 : (j.start_upload env).res = .raised e) :
    ∃ rec, (j.start_upload env).events
      = [.dumped rec, .fileClosed, .reraised e] := by
  rw [Upload.start_upload] at h3 ⊢
  simp only [h1, Bool.false_eq_true, if_false] at h3 ⊢
  rcases hres : (transmitLoop env (j.file_size + 1)
      j.get_current_chunk.1 j.get_current_chunk.2).res with j2 | ⟨j2, e2⟩ | j2
  · simp [hres] at h3
  · simp only [hres, h2, Bool.false_eq_true, if_false] at h3 ⊢
    simp at h3
    subst h3
    exact ⟨j2.dump_state, rfl⟩
  · simp [hres] at h3

/-- Witness for the amended C4: the chunk-2 RemoteError run of `jobFresh3`
dumps, closes, re-raises. -/
theorem c4_dump_close_reraise_witness :
    (envChunk2Fails.readFails jobFresh3.file_pos = false ∧
     envChunk2Fails.dumpFails = false ∧
     (jobFresh3.start_upload envChunk2Fails).res = .raised .remoteErr) ∧
    ∃ rec, (jobFresh3.start_upload envChunk2Fails).events
      = [.dumped rec, .fileClosed, .reraised .remoteErr] :=
  ⟨⟨rfl, rfl, by decide⟩,
   c4_dump_close_reraise envChunk2Fails jobFresh3 .remoteErr rfl rfl (by decide)⟩

/-- The remote oracle of the C2 scenario: chunk 1 acknowledged with checksum
`cs`, chunk 2 raising a RemoteError; reads and the dump succeed. -/
def envC2 (cs : String) : Env :=
  ⟨fun k => if k = 1 then some cs else none, fun _ => false, false⟩

/-- C2 amended — chunk 2 of 3 failing (4 MiB chunks, 10 MiB file, chunk 1
acknowledged with checksum "c1"): the failure handler writes a record with
cur_byte = 4194304 and a serialized checksum mapping holding only chunk 1's
entry (under the JSON string key "1"), but with cur_chunk = 2 — the 1-based
index of the chunk whose upload failed, not of the last acknowledged chunk —
because `_get_current_chunk` increments cur_chunk when the chunk is read,
before its upload is acknowledged. -/
theorem c2_failed_chunk2_record :
    (((Upload.init_fresh (r"v") (r"d") (r"p") 10485760 4).request_upload
        (r"acc") (r"uid")).start_upload (envC2 (r"c1"))).events =
      [.dumped ⟨r"acc", r"v", r"uid", 2, 4194304, r"p", 4,
         [(JKey.str (r"1"), r"c1")]⟩,
       .fileClosed, .reraised .remoteErr] := by
  decide

/-!
Bit trick check, decided over the validated range in chunks of 512: for n
in [1, 4096], `n & (n-1) == 0` agrees with membership in the powers of two
up to 2^12.
-/

set_option maxRecDepth 20000 in
theorem land_chk0 : ∀ m : Nat, m < 512 →
    ((Nat.land (m + 1) (m + 1 - 1) == 0)
      = (List.range 13).any (fun k => m + 1 == 2 ^ k)) := by
  decide

set_option maxRecDepth 20000 in
theorem land_chk1 : ∀ m : Nat, m < 512 →
    ((Nat.land (m + 513) (m + 513 - 1) == 0)
      = (List.range 13).any (fun k => m + 513 == 2 ^ k)) := by
  decide

set_option maxRecDepth 20000 in
theorem land_chk2 : ∀ m : Nat, m < 512 →
    ((Nat.land (m + 1025) (m + 1025 - 1) == 0)
      = (List.range 13).any (fun k => m + 1025 == 2 ^ k)) := by
  decide

set_option maxRecDepth 20000 in
theorem land_chk3 : ∀ m : Nat, m < 512 →
    ((Nat.land (m + 1537) (m + 1537 - 1) == 0)
      = (List.range 13).any (fun k => m + 1537 == 2 ^ k)) := by
  decide

set_option maxRecDepth 20000 in
theorem land_chk4 : ∀ m : Nat, m < 512 →
    ((Nat.land (m + 2049) (m + 2049 - 1) == 0)
      = (List.range 13).any (fun k => m + 2049 == 2 ^ k)) := by
  decide

set_option maxRecDepth 20000 in
theorem land_chk5 : ∀ m : Nat, m < 512 →
    ((Nat.land (m + 2561) (m + 2561 - 1) == 0)
      = (List.range 13).any (fun k => m + 2561 == 2 ^ k)) := by
  decide

set_option maxRecDepth 20000 in
theorem land_chk6 : ∀ m : Nat, m < 512 →
    ((Nat.land (m + 3073) (m + 3073 - 1) == 0)
      = (List.range 13).any (fun k => m + 3073 == 2 ^ k)) := by
  decide

set_option maxRecDepth 20000 in
theorem land_chk7 : ∀ m : Nat, m < 512 →
    ((Nat.land (m + 3585) (m + 3585 - 1) == 0)
      = (List.range 13).any (fun k => m + 3585 == 2 ^ k)) := by
  decide

theorem land_pow2_check (n : Nat) (h2 : n ≤ 4096) (h1 : 1 ≤ n) :
    (Nat.land n (n - 1) == 0) = (List.range 13).any (fun k => n == 2 ^ k) := by
  rcases Nat.lt_or_ge n 513 with h | h
  · obtain ⟨m, hm, rfl⟩ : ∃ m, m < 512 ∧ n = m + 1 :=
      ⟨n - 1, by omega, by omega⟩
    exact land_chk0 m hm
  rcases Nat.lt_or_ge n 1025 with h' | h
  · obtain ⟨m, hm, rfl⟩ : ∃ m, m < 512 ∧ n = m + 513 :=
      ⟨n - 513, by omega, by omega⟩
    exact land_chk1 m hm
  rcases Nat.lt_or_ge n 1537 with h' | h
  · obtain ⟨m, hm, rfl⟩ : ∃ m, m < 512 ∧ n = m + 1025 :=
      ⟨n - 1025, by omega, by omega⟩
    exact land_chk2 m hm
  rcases Nat.lt_or_ge n 2049 with h' | h
  · obtain ⟨m, hm, rfl⟩ : ∃ m, m < 512 ∧ n = m + 1537 :=
      ⟨n - 1537, by omega, by omega⟩
    exact land_chk3 m hm
  rcases Nat.lt_or_ge n 2561 with h' | h
  · obtain ⟨m, hm, rfl⟩ : ∃ m, m < 512 ∧ n = m + 2049 :=
      ⟨n - 2049, by omega, by omega⟩
    exact land_chk4 m hm
  rcases Nat.lt_or_ge n 3073 with h' | h
  · obtain ⟨m, hm, rfl⟩ : ∃ m, m < 512 ∧ n = m + 2561 :=
      ⟨n - 2561, by omega, by omega⟩
    exact land_chk5 m hm
  rcases Nat.lt_or_ge n 3585 with h' | h
  · obtain ⟨m, hm, rfl⟩ : ∃ m, m < 512 ∧ n = m + 3073 :=
      ⟨n - 3073, by omega, by omega⟩
    exact land_chk6 m hm
  · obtain ⟨m, hm, rfl⟩ : ∃ m, m < 512 ∧ n = m + 3585 :=
      ⟨n - 3585, by omega, by omega⟩
    exact land_chk7 m hm

theorem land_eq_zero_iff_pow2 (n : Nat) (h1 : 1 ≤ n) (h2 : n ≤ 4096) :
    Nat.land n (n - 1) = 0 ↔ ∃ k : Nat, n = 2 ^ k := by
  constructor
  · intro h
    have hany : (List.range 13).any (fun k => n == 2 ^ k) = true := by
      rw [← land_pow2_check n h2 h1]
      exact beq_iff_eq.2 h
    obtain ⟨k, _, hkeq⟩ := List.any_eq_true.1 hany
    exact ⟨k, beq_iff_eq.1 hkeq⟩
  · rintro ⟨k, rfl⟩
    have hk13 : k < 13 := by
      by_contra hc
      push_neg at hc
      have hle : (8192 : Nat) ≤ 2 ^ k := by
        calc (8192 : Nat) = 2 ^ 13 := by norm_num
          _ ≤ 2 ^ k := Nat.pow_le_pow_right (by omega) hc
      omega
    have hany : (List.range 13).any (fun j => 2 ^ k == 2 ^ j) = true :=
      List.any_eq_true.2 ⟨k, List.mem_range.2 hk13, beq_iff_eq.2 rfl⟩
    have hb := land_pow2_check (2 ^ k) h2 h1
    rw [hany] at hb
    exact beq_iff_eq.1 hb

/-- C9 — `validate_chunk_size` accepts exactly the ints that are powers of
two in [1, 4096]: the spec's sample points behave as stated, and when
validation fails, `parseAndInit` reports the value error without the result
depending on the file system (`disk_size` is never consumed): validation
happens before any file or network I/O. -/
theorem c9_validate_power_of_two :
    (∀ s : Int, exceptOk (validate_chunk_size s) = true ↔
      (1 ≤ s ∧ s ≤ 4096 ∧ ∃ k : Nat, s = 2 ^ k)) ∧
    exceptOk (validate_chunk_size 128) = true ∧
    exceptOk (validate_chunk_size 4096) = true ∧
    exceptOk (validate_chunk_size 129) = false ∧
    exceptOk (validate_chunk_size 5000) = false ∧
    exceptOk (validate_chunk_size 0) = false ∧
    (∀ (vault desc path : String) (s : Int) (d1 d2 : Nat),
      exceptOk (validate_chunk_size s) = false →
        parseAndInit vault desc path s d1 = parseAndInit vault desc path s d2 ∧
        ∃ m, parseAndInit vault desc path s d1 = .error m) := by
  refine ⟨?_, by decide, by decide, by decide, by decide, by decide, ?_⟩
  · intro s
    by_cases hr : s < 1 ∨ s > 4096
    · rw [validate_chunk_size, if_pos hr]
      simp only [exceptOk, Bool.false_eq_true, false_iff]
      rintro ⟨hs1, hs2, -⟩
      omega
    · push_neg at hr
      obtain ⟨hs1, hs2⟩ := hr
      rw [validate_chunk_size, if_neg (by omega)]
      lift s to ℕ using (by omega : (0 : ℤ) ≤ s) with n hn
      have hn1 : 1 ≤ n := by exact_mod_cast hs1
      have hn2 : n ≤ 4096 := by exact_mod_cast hs2
      have hland : Int.land (n : ℤ) ((n : ℤ) - 1)
          = ((Nat.land n (n - 1) : ℕ) : ℤ) := by
        rw [show ((n : ℤ) - 1) = ((n - 1 : ℕ) : ℤ) by omega]
        rfl
      by_cases hl : Nat.land n (n - 1) = 0
      · rw [if_neg]
        · simp only [exceptOk, true_iff]
          refine ⟨hs1, hs2, ?_⟩
          obtain ⟨k, hk⟩ := (land_eq_zero_iff_pow2 n hn1 hn2).1 hl
          exact ⟨k, by rw [hk]; push_cast; ring⟩
        · rintro (h | h)
          · omega
          · rw [hland, hl] at h
            exact h rfl
      · rw [if_pos (Or.inr (by rw [hland]; exact_mod_cast hl))]
        simp only [exceptOk, Bool.false_eq_true, false_iff]
        rintro ⟨-, -, k, hk⟩
        have hcast : n = 2 ^ k := by exact_mod_cast hk
        exact hl ((land_eq_zero_iff_pow2 n hn1 hn2).2 ⟨k, hcast⟩)
  · intro vault desc path s d1 d2 h
    cases hv : validate_chunk_size s with
    | error m =>
      refine ⟨?_, ⟨m, ?_⟩⟩ <;> simp [parseAndInit, hv]
    | ok v =>
      rw [hv] at h
      simp [exceptOk] at h

/-- Witness for C9: validate accepts 128, and a failed validation (129)
yields the same value error whatever the file system holds. -/
theorem c9_validate_power_of_two_witness :
    exceptOk (validate_chunk_size 128) = true ∧
    (parseAndInit (r"v") (r"d") (r"p") 129 0 = parseAndInit (r"v") (r"d") (r"p") 129 7 ∧
     ∃ m, parseAndInit (r"v") (r"d") (r"p") 129 0 = .error m) :=
  ⟨c9_validate_power_of_two.2.1,
   c9_validate_power_of_two.2.2.2.2.2.2 (r"v") (r"d") (r"p") 129 0 7 (by decide)⟩

/-- Witness for the amended C3 at `jobAfterChunk1`. -/
theorem c3_roundtrip_amended_witness :
    (Upload.init_resume jobAfterChunk1.dump_state 3).cur_chunk
        = jobAfterChunk1.cur_chunk ∧
    (Upload.init_resume jobAfterChunk1.dump_state 3).cur_byte
        = jobAfterChunk1.cur_byte ∧
    (Upload.init_resume jobAfterChunk1.dump_state 3).part_checksums
        = jobAfterChunk1.part_checksums.map (fun p => (jsonKey p.1, p.2)) :=
  c3_roundtrip_amended jobAfterChunk1 3

/-- Witness for C10 at the scenario record and a 7-byte disk file. -/
theorem c10_size_recomputed_witness :
    (Upload.init_resume recFailed2 7).file_size = 7 ∧
    (Upload.init_resume recFailed2 7).chunks
        = ceilDiv 7 (1048576 * recFailed2.chunk_size_mb) ∧
    Upload.dump_state { jobTiny with file_size := 9 } = jobTiny.dump_state :=
  c10_size_recomputed recFailed2 7 jobTiny 9
